import Mathlib

/-!
# Verification of napari's asynchronous chunk-loading core

A shallow embedding, in Lean 4, of the subsystem comprising
`napari/utils/chunk_loader.py` (ChunkRequest, ChunkCache, ChunkLoader,
`synchronous_loading`) and
`napari/layers/image/experimental/_octree_chunk_loader.py`
(OctreeChunkLoader), together with theorems about cache bounds,
single-flight invariants, level-of-detail coverage selection, stale-future
cancellation, completion callbacks and the synchronous-mode context
manager.

Python mutable state is threaded explicitly; machine concerns (threads,
the GIL, logging, perf timers) are abstracted away; fallible operations
return `Except`/`Option`.
-/

/-- Payloads handled by the loader.  `ndarray` is a plain in-memory numpy
array; `lazyArray` stands for any lazy array-like (dask etc.) whose
materialization via `np.asarray` may do IO.  We model the raw bytes of a
payload as a `List Nat` so that `nbytes` is its length. -/
inductive ArrayLike where
  | ndarray (data : List Nat)
  | lazyArray (data : List Nat)
deriving DecidableEq, Repr

namespace ArrayLike

/-- `np.asarray`: materialize any array-like into a concrete ndarray. -/
def asarray : ArrayLike → ArrayLike
  | ndarray d => ndarray d
  | lazyArray d => ndarray d

/-- Is this payload already a plain in-memory `np.ndarray`?
(`isinstance(request.array, np.ndarray)` in `ChunkLoader.load_chunk`.) -/
def isNdarray : ArrayLike → Bool
  | ndarray _ => true
  | lazyArray _ => false

/-- `array.nbytes`, the byte size used by the cache (`_getsizeof_chunk`). -/
def nbytes : ArrayLike → Nat
  | ndarray d => d.length
  | lazyArray d => d.length

end ArrayLike

/-- The hashable key of a `ChunkRequest`: `(data_id, indices_tuple)`.
Indices (ints and slices made hashable) are abstracted as a list of
integers. -/
structure ChunkKey where
  data_id : Nat
  indices : List Int
deriving DecidableEq, Repr

/-- `ChunkRequest`: a request asking the ChunkLoader to load an array
(`chunk_loader.py`, class `ChunkRequest`).  `layer_id`/`data_id` are the
Python `id()`s of the layer and of its data; `key` is derived as
`(data_id, indices)`. -/
structure ChunkRequest where
  layer_id : Nat
  data_id : Nat
  indices : List Int
  array : ArrayLike
deriving DecidableEq, Repr

namespace ChunkRequest

def key (r : ChunkRequest) : ChunkKey := ⟨r.data_id, r.indices⟩

/-- The worker body `_chunk_loader_worker` (minus pid/delay bookkeeping):
`request.array = np.asarray(request.array)`. -/
def materialize (r : ChunkRequest) : ChunkRequest :=
  { r with array := r.array.asarray }

end ChunkRequest

/-!
## ChunkCache

`ChunkCache` wraps `cachetools.LRUCache(maxsize=nbytes,
getsizeof=_getsizeof_chunk)`.  We embed the library's semantics: entries
are kept in recency order (least recently used first here), `__setitem__`
raises `ValueError` when a single value is larger than `maxsize`,
otherwise it evicts least-recently-used entries until the new value fits,
and `get` refreshes recency of the hit entry.
-/

/-- The LRU cache state: capacity in bytes and entries ordered least
recently used first (so eviction pops from the front). -/
structure ChunkCache where
  maxsize : Nat
  entries : List (ChunkKey × ArrayLike)
deriving DecidableEq, Repr

namespace ChunkCache

/-- Total resident bytes (`currsize` of the LRUCache). -/
def totalBytes (es : List (ChunkKey × ArrayLike)) : Nat :=
  (es.map fun e => e.2.nbytes).sum

/-- Evict least-recently-used entries (front of the list) until the
resident total fits in `budget`. -/
def evict (budget : Nat) : List (ChunkKey × ArrayLike) → List (ChunkKey × ArrayLike)
  | [] => []
  | e :: rest =>
    if totalBytes (e :: rest) ≤ budget then e :: rest else evict budget rest

/-- `LRUCache.__setitem__`: raise for an oversized value, otherwise drop
any previous binding of the key, evict until the value fits, and append
the new binding as most recently used. -/
def setItem (c : ChunkCache) (k : ChunkKey) (v : ArrayLike) :
    Except String ChunkCache :=
  if v.nbytes > c.maxsize then .error "value too large"
  else
    let without := c.entries.filter fun e => e.1 ≠ k
    .ok { c with entries := evict (c.maxsize - v.nbytes) without ++ [(k, v)] }

/-- `ChunkCache.add_chunk`: `self.chunks[request.key] = request.array`.
The `ValueError` from an oversized payload propagates to the caller. -/
def add_chunk (c : ChunkCache) (r : ChunkRequest) : Except String ChunkCache :=
  setItem c r.key r.array

/-- `ChunkCache.get_chunk`: `self.chunks.get(request.key)`.  A hit also
refreshes the entry's recency (LRUCache `__getitem__`). -/
def get_chunk (c : ChunkCache) (r : ChunkRequest) :
    Option ArrayLike × ChunkCache :=
  match c.entries.find? (fun e => e.1 = r.key) with
  | none => (none, c)
  | some e =>
    (some e.2, { c with entries := (c.entries.filter fun e' => e'.1 ≠ r.key) ++ [e] })

end ChunkCache

/-!
## ChunkLoader

The loader owns a `ProcessPoolExecutor`, a map `data_id ↦ List[Future]`, a
`ChunkCache` and a `layer_map : layer_id ↦ weakref(Layer)`.  We model a
future as a record with an identifier, the `data_id` it was submitted for,
and its executor status; `Future.cancel()` succeeds exactly when the
worker has not started it yet.  The futures dict is flattened into a
single submission-ordered list (the per-`data_id` lists of the Python
`defaultdict` are its `data_id`-filtered sublists).  Cancelled futures
are removed from the list (as `_clear_pending` does) and their ids are
appended to `cancelledLog` so cancellations are observable.
-/

/-- Executor state of one `concurrent.futures.Future`. -/
inductive FutureStatus where
  | pending
  | running
  | finished
deriving DecidableEq, Repr

/-- One future submitted via `executor.submit(_chunk_loader_worker, request)`. -/
structure LoadFuture where
  fid : Nat
  data_id : Nat
  status : FutureStatus
deriving DecidableEq, Repr

/-- The mutable state of a `ChunkLoader`.  `layer_map` maps `layer_id` to
the weakref's current referent (`none` once the layer was
garbage-collected); an absent key models a layer id never registered. -/
structure LoaderState where
  synchronous : Bool
  cache : ChunkCache
  futures : List LoadFuture
  layer_map : List (Nat × Option Nat)
  nextFid : Nat
  cancelledLog : List Nat
deriving DecidableEq, Repr

namespace LoaderState

/-- Futures for `data_id` that are outstanding and not yet started. -/
def pendingFor (s : LoaderState) (data_id : Nat) : List LoadFuture :=
  s.futures.filter fun f => f.data_id = data_id ∧ f.status = .pending

end LoaderState

namespace ChunkLoader

/-- `ChunkLoader._clear_pending(data_id)`: call `cancel()` on every future
in `self.futures[data_id]` and keep only those whose cancellation failed
(i.e. that already started).  Futures for other `data_id`s are
untouched. -/
def clear_pending (s : LoaderState) (data_id : Nat) : LoaderState :=
  { s with
    futures := s.futures.filter fun f =>
      ¬(f.data_id = data_id ∧ f.status = .pending)
    cancelledLog := s.cancelledLog ++
      ((s.futures.filter fun f => f.data_id = data_id ∧ f.status = .pending).map
        LoadFuture.fid) }

/-- `ChunkLoader._load_async`: clear pending futures for the request's
`data_id`, then check the cache; a hit is returned synchronously, a miss
submits `_chunk_loader_worker` to the executor and returns `none`. -/
def load_async (s : LoaderState) (r : ChunkRequest) :
    Option ChunkRequest × LoaderState :=
  let s1 := clear_pending s r.data_id
  match ChunkCache.get_chunk s1.cache r with
  | (some arr, cache') =>
    (some { r with array := arr }, { s1 with cache := cache' })
  | (none, cache') =>
    (none,
      { s1 with
        cache := cache'
        futures := s1.futures ++ [⟨s1.nextFid, r.data_id, .pending⟩]
        nextFid := s1.nextFid + 1 })

/-- `ChunkLoader.load_chunk`: synchronous mode or an in-memory ndarray
payload is materialized inline (`np.asarray`) and returned satisfied;
otherwise `_load_async` runs. -/
def load_chunk (s : LoaderState) (r : ChunkRequest) :
    Option ChunkRequest × LoaderState :=
  let in_memory := r.array.isNdarray
  if s.synchronous || in_memory then
    (some r.materialize, s)
  else
    load_async s r

end ChunkLoader

/-!
## Loader event traces

To reason about sequences of operations we close the loader state under
the events the system can perform: a `load_chunk` call from the
orchestration thread, a worker picking a pending future up, and a worker
finishing a future (which runs `_done`'s cache insertion).
-/

/-- What a completed future delivers to `ChunkLoader._done`:
`future.result()` either raises `CancelledError`, re-raises an exception
from `_chunk_loader_worker`, or returns the satisfied request. -/
inductive FutureResult where
  | cancelled
  | failed
  | satisfied (r : ChunkRequest)
deriving DecidableEq, Repr

/-- A notification emitted by `self.events.chunk_loaded(layer=…,
request=…)`. -/
structure ChunkLoadedEvent where
  layer : Nat
  request : ChunkRequest
deriving DecidableEq, Repr

namespace ChunkLoader

/-- `ChunkLoader._get_layer_for_request`: look the `layer_id` up in
`layer_map` (a missing id logs a warning and yields `None`), then
dereference the weakref (a dead layer yields `None`). -/
def get_layer_for_request (s : LoaderState) (r : ChunkRequest) : Option Nat :=
  match s.layer_map.lookup r.layer_id with
  | none => none
  | some ref => ref

/-- `ChunkLoader._done`: the completion callback.  `CancelledError` is
caught and swallowed; any other exception from `future.result()` is NOT
caught and escapes the callback (modelled by `.error`).  On success the
chunk is added to the cache (whose `ValueError` would also escape), the
layer weakref is resolved — a dead or unknown layer drops the result
silently — and otherwise exactly one `chunk_loaded` event is emitted. -/
def done (s : LoaderState) (res : FutureResult) :
    Except LoaderState (LoaderState × Option ChunkLoadedEvent) :=
  match res with
  | .cancelled => .ok (s, none)
  | .failed => .error s
  | .satisfied r =>
    match ChunkCache.add_chunk s.cache r with
    | .error _ => .error s
    | .ok cache' =>
      let s' := { s with cache := cache' }
      match get_layer_for_request s' r with
      | none => .ok (s', none)
      | some layer => .ok (s', some ⟨layer, r⟩)

end ChunkLoader

/-- An event in the life of the loader: a `load_chunk` call, a worker
starting a pending future, or a worker finishing a running future (a
finished future stays in the futures list — `_done` never removes it). -/
inductive LoaderEvent where
  | load (r : ChunkRequest)
  | start (fid : Nat)
  | finish (fid : Nat) (r : ChunkRequest)
deriving DecidableEq, Repr

namespace ChunkLoader

/-- Small-step semantics of the loader under one event. -/
def step (s : LoaderState) : LoaderEvent → LoaderState
  | .load r => (load_chunk s r).2
  | .start fid =>
    { s with
      futures := s.futures.map fun f =>
        if f.fid = fid ∧ f.status = .pending then { f with status := .running }
        else f }
  | .finish fid r =>
    let s' :=
      { s with
        futures := s.futures.map fun f =>
          if f.fid = fid ∧ f.status = .running then { f with status := .finished }
          else f }
    match done s' (.satisfied r) with
    | .ok (s'', _) => s''
    | .error s'' => s''

/-- Run a trace of events from a state. -/
def run (s : LoaderState) (evs : List LoaderEvent) : LoaderState :=
  evs.foldl step s

/-- A fresh loader in asynchronous mode with an empty cache of capacity
`maxsize` (`ChunkLoader.__init__` with `NAPARI_ASYNC_LOAD=1`). -/
def init (maxsize : Nat) : LoaderState :=
  { synchronous := false
    cache := ⟨maxsize, []⟩
    futures := []
    layer_map := []
    nextFid := 0
    cancelledLog := [] }

end ChunkLoader

/-!
## `synchronous_loading` context manager

`@contextmanager def synchronous_loading(enabled)` saves the loader's
`synchronous` flag, sets it to `enabled`, yields, and restores it — with
no `try/finally`, so an exception in the body skips the restore.  We
model the body as a function from the flag value it observes to the flag
value it leaves behind plus a normal (`Except.ok`) or exceptional
(`Except.error`) outcome. -/
def synchronous_loading {α ε : Type} (flag : Bool) (enabled : Bool)
    (body : Bool → Bool × Except ε α) : Bool × Except ε α :=
  let previous := flag
  let flag1 := enabled
  match body flag1 with
  | (_, .ok a) => (previous, .ok a)
  | (flag2, .error e) => (flag2, .error e)

/-!
## Octree data model

`octree.py`/`octree_chunk.py` are not part of the loader sources; the
types below are modelled from the spec (§3, §4.4, §4.5).
-/

/-- Modelled from the spec: `OctreeLocation` is the `(level_index, row,
col)` triple identifying a node; an immutable, hashable value used as the
chunk identity within the octree context (so set/dict membership of
chunks and of chunk keys is decided by location; the layer key component
of `OctreeChunkKey` is fixed, there being one layer per
`OctreeChunkLoader`). -/
structure OctreeLocation where
  level_index : Nat
  row : Nat
  col : Nat
deriving DecidableEq, Repr

/-- Modelled from the spec: the three mutually exclusive lifecycle states
of an `OctreeChunk` (§4.5), exposed in the code as the derived booleans
`in_memory`, `loading` and `needs_load`. -/
inductive ChunkLifecycle where
  | notLoaded
  | loading
  | inMemory
deriving DecidableEq, Repr

/-- `NUM_ANCESTORS_LEVELS` from `_octree_chunk_loader.py`. -/
def NUM_ANCESTORS_LEVELS : Nat := 3

/-- The state an `OctreeChunkLoader` and its octree evolve over one
selection pass.  `rootLevel` is the index of the coarsest level (the
octree has levels `0 … rootLevel`, level `rootLevel` holding the single
root tile).  `store` gives the lifecycle state of each materialized
chunk; a location absent from it stands for a lazily-creatable node with
no data (`notLoaded`), which makes node creation (`create=True`) a
no-op in the model.  `futures` is the `location ↦ Future` dict
`self._futures` (we keep only the keys), and `octCancelled` logs the
locations whose futures had `cancel()` called. -/
structure OctreeState where
  rootLevel : Nat
  store : List (OctreeLocation × ChunkLifecycle)
  futures : List OctreeLocation
  octCancelled : List OctreeLocation
deriving DecidableEq, Repr

namespace OctreeState

/-- Lifecycle state of the chunk at a location (`notLoaded` if the node
was never materialized). -/
def chunkState (st : OctreeState) (loc : OctreeLocation) : ChunkLifecycle :=
  (st.store.lookup loc).getD .notLoaded

/-- `chunk.in_memory`. -/
def in_memory (st : OctreeState) (loc : OctreeLocation) : Bool :=
  st.chunkState loc = .inMemory

/-- `chunk.loading`. -/
def isLoading (st : OctreeState) (loc : OctreeLocation) : Bool :=
  st.chunkState loc = .loading

/-- `chunk.needs_load`: not in memory and no load started. -/
def needs_load (st : OctreeState) (loc : OctreeLocation) : Bool :=
  st.chunkState loc = .notLoaded

/-- Overwrite the lifecycle state of one chunk. -/
def setState (st : OctreeState) (loc : OctreeLocation) (c : ChunkLifecycle) :
    OctreeState :=
  { st with store := (st.store.filter fun e => e.1 ≠ loc) ++ [(loc, c)] }

/-- The root tile's location: `self._octree.levels[-1].get_chunk(0, 0,
create=True)`. -/
def rootLoc (st : OctreeState) : OctreeLocation :=
  ⟨st.rootLevel, 0, 0⟩

/-- Modelled from the spec: `Octree.get_children(node, create=False,
in_memory=True)` — the up-to-4 nodes one level finer that spatially
cover the node, filtered to those whose data is resident, never creating
nodes or triggering loads (§4.4). -/
def get_children (st : OctreeState) (loc : OctreeLocation) :
    List OctreeLocation :=
  if loc.level_index = 0 then []
  else
    let l := loc.level_index - 1
    [⟨l, 2 * loc.row, 2 * loc.col⟩, ⟨l, 2 * loc.row, 2 * loc.col + 1⟩,
     ⟨l, 2 * loc.row + 1, 2 * loc.col⟩,
     ⟨l, 2 * loc.row + 1, 2 * loc.col + 1⟩].filter st.in_memory

/-- Modelled from the spec: `Octree.get_ancestors(node,
NUM_ANCESTORS_LEVELS)` — walk up to `NUM_ANCESTORS_LEVELS` coarser
levels from the node's position, creating ancestors as needed (creation
is a no-op under the `store` default) and stopping at the root level
(§4.4). -/
def get_ancestors (st : OctreeState) (loc : OctreeLocation) :
    List OctreeLocation :=
  (List.range NUM_ANCESTORS_LEVELS).filterMap fun i =>
    let lvl := loc.level_index + i + 1
    if lvl ≤ st.rootLevel then
      some ⟨lvl, loc.row / 2 ^ (i + 1), loc.col / 2 ^ (i + 1)⟩
    else none

end OctreeState

/-!
## OctreeChunkLoader

The embedding of `_octree_chunk_loader.py`.  Whether a given chunk's
`ChunkLoader.load_chunk` call is satisfied synchronously (force-sync
config, payload already an ndarray, sync-by-speed heuristic, or cache
hit) is decided outside this class, so it enters the model as an oracle
`sync : OctreeLocation → Bool`.
-/

namespace OctreeChunkLoader

open OctreeState

/-- `OctreeChunkLoader._get_family`: in-memory direct children plus up to
`NUM_ANCESTORS_LEVELS` of ancestors, children first. -/
def get_family (st : OctreeState) (loc : OctreeLocation) :
    List OctreeLocation :=
  st.get_children loc ++ st.get_ancestors loc

/-- `OctreeChunkLoader._get_coverage`: an ideal chunk that is in memory
and already drawn contributes only itself; otherwise the family is
filtered — members at finer levels are kept only when already drawn,
coarser members always — and the ideal chunk is appended at the end when
it is in memory. -/
def get_coverage (st : OctreeState) (ideal : OctreeLocation)
    (drawn : List OctreeLocation) : List OctreeLocation :=
  if st.in_memory ideal ∧ ideal ∈ drawn then [ideal]
  else
    let family := get_family st ideal
    let keep := family.filter fun c =>
      if c.level_index < ideal.level_index then decide (c ∈ drawn) else true
    if st.in_memory ideal then keep ++ [ideal] else keep

/-- `OctreeChunkLoader._get_permanent_chunks`: just the root tile. -/
def get_permanent_chunks (st : OctreeState) : List OctreeLocation :=
  [st.rootLoc]

/-- `OctreeChunkLoader._load_chunk`: assert the chunk is neither in
memory nor loading, mark it loading, and hand a request to the global
chunk loader.  A synchronous load stores the data (the chunk becomes
`inMemory`) and returns `true`; an asynchronous one saves the future
under the chunk's location and returns `false`. -/
def load_one (sync : OctreeLocation → Bool) (st : OctreeState)
    (loc : OctreeLocation) : Except String (Bool × OctreeState) :=
  if st.in_memory loc ∨ st.isLoading loc then .error "AssertionError"
  else
    let st1 := st.setState loc .loading
    if sync loc then .ok (true, st1.setState loc .inMemory)
    else .ok (false, { st1 with futures := st1.futures ++ [loc] })

/-- `OctreeChunkLoader._load_if_needed`: collect chunks already in
memory, start loads for those that need one, and also collect chunks
whose load completed synchronously. -/
def load_if_needed (sync : OctreeLocation → Bool) :
    OctreeState → List OctreeLocation →
    Except String (List OctreeLocation × OctreeState)
  | st, [] => .ok ([], st)
  | st, c :: rest =>
    let here : List OctreeLocation := if st.in_memory c then [c] else []
    if st.needs_load c then
      match load_one sync st c with
      | .error e => .error e
      | .ok (loaded, st') =>
        let here' := here ++ if loaded then [c] else []
        match load_if_needed sync st' rest with
        | .error e => .error e
        | .ok (mem, st'') => .ok (here' ++ mem, st'')
    else
      match load_if_needed sync st rest with
      | .error e => .error e
      | .ok (mem, st'') => .ok (here ++ mem, st'')

/-- Insertion into the ordered `drawable` dict (`drawable[chunk] = 1`):
a repeated key keeps its original position. -/
def dictInsert (d : List OctreeLocation) (loc : OctreeLocation) :
    List OctreeLocation :=
  if loc ∈ d then d else d ++ [loc]

/-- `OctreeChunkLoader._load_and_add` folded over one chunk list:
load-if-needed, then put every in-memory chunk into `drawable`. -/
def load_and_add (sync : OctreeLocation → Bool) (drawable : List OctreeLocation)
    (st : OctreeState) (chunks : List OctreeLocation) :
    Except String (List OctreeLocation × OctreeState) :=
  match load_if_needed sync st chunks with
  | .error e => .error e
  | .ok (mem, st') => .ok (mem.foldl dictInsert drawable, st')

/-- `OctreeChunkLoader._cancel_futures`: call `cancel()` on, and delete,
every saved future whose location is not in the drawable set; keep the
rest. -/
def cancel_futures (st : OctreeState) (drawable : List OctreeLocation) :
    OctreeState :=
  { st with
    futures := st.futures.filter fun loc => loc ∈ drawable
    octCancelled := st.octCancelled ++
      st.futures.filter fun loc => loc ∉ drawable }

/-- The per-ideal-chunk loop of `get_drawable_chunks` (step 2): coverage
for each ideal chunk is computed and loaded-and-added into `drawable`. -/
def coverage_loop (sync : OctreeLocation → Bool)
    (drawn : List OctreeLocation) :
    List OctreeLocation → List OctreeLocation → OctreeState →
    Except String (List OctreeLocation × OctreeState)
  | [], drawable, st => .ok (drawable, st)
  | ideal :: rest, drawable, st =>
    match load_and_add sync drawable st (get_coverage st ideal drawn) with
    | .error e => .error e
    | .ok (drawable', st') => coverage_loop sync drawn rest drawable' st'

/-- Step 5 of `get_drawable_chunks`: kick off a load for every ideal
chunk that still needs one.  When such a load is satisfied synchronously
the code runs `drawable.append(ideal_chunk)` — but `drawable` is a
`dict`, which has no `append`, so an `AttributeError` escapes. -/
def kickoff_loop (sync : OctreeLocation → Bool) :
    List OctreeLocation → OctreeState → Except String OctreeState
  | [], st => .ok st
  | ideal :: rest, st =>
    if st.needs_load ideal then
      match load_one sync st ideal with
      | .error e => .error e
      | .ok (true, _) =>
        .error "AttributeError: dict object has no attribute append"
      | .ok (false, st') => kickoff_loop sync rest st'
    else kickoff_loop sync rest st

/-- `OctreeChunkLoader.get_drawable_chunks`: build the ordered drawable
set from the permanent (root) chunk and the coverage of every ideal
chunk, cancel futures that are no longer drawable, then kick off loads
for still-unloaded ideal chunks, and return the drawable list. -/
def get_drawable_chunks (sync : OctreeLocation → Bool) (st : OctreeState)
    (drawn : List OctreeLocation) (ideal_chunks : List OctreeLocation) :
    Except String (List OctreeLocation × OctreeState) :=
  match load_and_add sync [] st (get_permanent_chunks st) with
  | .error e => .error e
  | .ok (drawable, st1) =>
    match coverage_loop sync drawn ideal_chunks drawable st1 with
    | .error e => .error e
    | .ok (drawable2, st2) =>
      let st3 := cancel_futures st2 drawable2
      match kickoff_loop sync ideal_chunks st3 with
      | .error e => .error e
      | .ok st4 => .ok (drawable2, st4)

end OctreeChunkLoader

/-- Number of `chunk_loaded` notifications an outcome of
`ChunkLoader._done` carries. -/
def notifCount :
    Except LoaderState (LoaderState × Option ChunkLoadedEvent) → Nat
  | .ok (_, some _) => 1
  | _ => 0

/-!
## Helper lemmas
-/

lemma filter_clear_self (l : List LoadFuture) (d : Nat) :
    (l.filter fun f => ¬(f.data_id = d ∧ f.status = .pending)).filter
      (fun f => f.data_id = d ∧ f.status = .pending) = [] := by
  rw [List.filter_filter]
  refine List.filter_eq_nil_iff.2 fun f _ => ?_
  by_cases h : f.data_id = d ∧ f.status = .pending <;> simp [h]

lemma filter_clear_ne (l : List LoadFuture) (d d' : Nat) (h : d' ≠ d) :
    (l.filter fun f => ¬(f.data_id = d ∧ f.status = .pending)).filter
      (fun f => f.data_id = d' ∧ f.status = .pending)
    = l.filter fun f => f.data_id = d' ∧ f.status = .pending := by
  rw [List.filter_filter]
  refine List.filter_congr fun f _ => ?_
  by_cases hp : f.data_id = d' ∧ f.status = .pending
  · have hcl : ¬(f.data_id = d ∧ f.status = .pending) := fun hc =>
      h (hp.1.symm.trans hc.1)
    simp [hp, hcl, h]
  · simp [hp]

lemma clear_pending_cache (s : LoaderState) (d : Nat) :
    (ChunkLoader.clear_pending s d).cache = s.cache := rfl

lemma pendingFor_clear_self (s : LoaderState) (d : Nat) :
    (ChunkLoader.clear_pending s d).pendingFor d = [] := by
  simp only [ChunkLoader.clear_pending, LoaderState.pendingFor]
  exact filter_clear_self s.futures d

lemma pendingFor_clear_ne (s : LoaderState) (d d' : Nat) (h : d' ≠ d) :
    (ChunkLoader.clear_pending s d).pendingFor d' = s.pendingFor d' := by
  simpa [ChunkLoader.clear_pending, LoaderState.pendingFor] using
    filter_clear_ne s.futures d d' h

lemma countP_map_le {α : Type} (f : α → α) (p : α → Bool) (l : List α)
    (h : ∀ x, p (f x) = true → p x = true) :
    (l.map f).countP p ≤ l.countP p := by
  induction l with
  | nil => simp
  | cons a t ih =>
    rw [List.map_cons, List.countP_cons, List.countP_cons]
    by_cases ha : p (f a) = true
    · rw [if_pos ha, if_pos (h a ha)]
      omega
    · rw [if_neg ha]
      split <;> omega

/-!
## Claim theorems
-/

/-- Claim C10: `synchronous_loading(enabled)` sets the global loader's
`synchronous` flag to `enabled` for the body (the body observes
`enabled`), restores the previous value on a normal exit — a round trip
leaving the flag unchanged — and, because the restore is not guarded by
`try/finally`, does NOT restore it when the body raises: the flag then
stays at the temporary value `enabled` (for a body that itself leaves
the flag where it found it). -/
theorem synchronous_loading_round_trip {α ε : Type} (flag enabled : Bool)
    (body : Bool → Bool × Except ε α) :
    (∀ f2 a, body enabled = (f2, .ok a) →
      synchronous_loading flag enabled body = (flag, .ok a))
    ∧ (∀ e, body enabled = (enabled, .error e) →
      synchronous_loading flag enabled body = (enabled, .error e)) := by
  constructor
  · intro f2 a h
    simp [synchronous_loading, h]
  · intro e h
    simp [synchronous_loading, h]

/-- Witness for C10 at concrete inputs: a normal body restores the flag
to `true`, a raising body leaves it at the temporary value `false`. -/
theorem synchronous_loading_round_trip_witness :
    synchronous_loading true false
        (fun b => (b, (Except.ok 0 : Except Nat Nat)))
      = (true, Except.ok 0)
    ∧ synchronous_loading true false
        (fun b => (b, (Except.error 1 : Except Nat Nat)))
      = (false, Except.error 1) :=
  ⟨(synchronous_loading_round_trip true false
      (fun b => (b, (Except.ok 0 : Except Nat Nat)))).1 false 0 rfl,
   (synchronous_loading_round_trip true false
      (fun b => (b, (Except.error 1 : Except Nat Nat)))).2 1 rfl⟩

/-- Claim C7, counterexample: `_done` catches only `CancelledError`, so
when the materialization step raised (the future's `result()` re-raises
the worker's exception) the loader does not catch or log it — the
exception escapes `_done` (here at the concrete initial loader state),
contradicting the claim that the loader catches the error. -/
theorem done_failed_cex :
    ChunkLoader.done (ChunkLoader.init 10) .failed
      = .error (ChunkLoader.init 10) := by
  rfl

/-- Claim C7 (amended): when the materialization step raised, `_done`
catches nothing (only cancellation is caught): the exception propagates
out of `_done` un-caught — it is left to the executor's
callback-invoking machinery, outside the loader — while the loader state
(in particular the cache) is unchanged and no `chunk_loaded`
notification is emitted for that request. -/
theorem done_failed_escapes (s : LoaderState) :
    ChunkLoader.done s .failed = .error s
    ∧ notifCount (ChunkLoader.done s .failed) = 0 :=
  ⟨rfl, rfl⟩

/-- Claim C9: the code is at odds with the claim.  Step 5 of
`get_drawable_chunks` runs `drawable.append(ideal_chunk)` when a
still-unloaded ideal chunk is satisfied synchronously, but `drawable` is
a `dict`, which has no `append`: an `AttributeError` escapes the
selection pass.  Concretely: root `(2,0,0)` in memory, one ideal chunk
`(0,0,0)` not yet loaded, loads satisfied synchronously. -/
theorem get_drawable_chunks_step5_crash :
    OctreeChunkLoader.get_drawable_chunks (fun _ => true)
      ⟨2, [(⟨2, 0, 0⟩, .inMemory)], [], []⟩ [] [⟨0, 0, 0⟩]
      = .error "AttributeError: dict object has no attribute append" := by
  rfl

lemma mem_get_children_level (st : OctreeState) (loc c : OctreeLocation)
    (h : c ∈ st.get_children loc) : c.level_index < loc.level_index := by
  unfold OctreeState.get_children at h
  split at h
  · simp at h
  · rename_i h0
    have hc := (List.mem_filter.1 h).1
    simp only [List.mem_cons, List.not_mem_nil, or_false] at hc
    rcases hc with rfl | rfl | rfl | rfl <;> · show loc.level_index - 1 < _; omega

lemma mem_get_ancestors_level (st : OctreeState) (loc c : OctreeLocation)
    (h : c ∈ st.get_ancestors loc) : loc.level_index < c.level_index := by
  simp only [OctreeState.get_ancestors, List.mem_filterMap] at h
  obtain ⟨i, _, hi⟩ := h
  split at hi
  · cases hi
    show loc.level_index < loc.level_index + i + 1
    omega
  · exact absurd hi (by simp)

lemma mem_get_family_level_ne (st : OctreeState) (ideal c : OctreeLocation)
    (h : c ∈ OctreeChunkLoader.get_family st ideal) :
    c.level_index ≠ ideal.level_index := by
  rcases List.mem_append.1 h with h | h
  · exact Nat.ne_of_lt (mem_get_children_level st ideal c h)
  · exact (Nat.ne_of_lt (mem_get_ancestors_level st ideal c h)).symm

/-- Claim C3, counterexample: for an ideal chunk `(1,0,0)` that is NOT
in memory (octree with root level 2, nothing loaded), `_get_coverage`
returns only the coarser family members and does NOT append the ideal
chunk last — the ideal chunk is not in the coverage list at all,
contradicting the claim that it is always appended last. -/
theorem get_coverage_not_appended_cex :
    OctreeChunkLoader.get_coverage ⟨2, [], [], []⟩ ⟨1, 0, 0⟩ []
      = [⟨2, 0, 0⟩]
    ∧ (⟨1, 0, 0⟩ : OctreeLocation) ∉
      OctreeChunkLoader.get_coverage ⟨2, [], [], []⟩ ⟨1, 0, 0⟩ [] := by
  decide

/-- Claim C3 (amended): an ideal chunk in memory and already drawn gets
coverage `[ideal]` alone; otherwise every family member at a coarser
level is kept, a family member at a finer level is kept exactly when its
key is in the drawn set, and the ideal chunk itself is appended last ONLY
when it is in memory — an ideal chunk not in memory is absent from its
own coverage list (it is loaded later, in step 5 of the pass). -/
theorem get_coverage_spec (st : OctreeState) (ideal : OctreeLocation)
    (drawn : List OctreeLocation) :
    (st.in_memory ideal = true → ideal ∈ drawn →
      OctreeChunkLoader.get_coverage st ideal drawn = [ideal])
    ∧ (¬(st.in_memory ideal = true ∧ ideal ∈ drawn) →
      (∀ c ∈ OctreeChunkLoader.get_family st ideal,
        ideal.level_index < c.level_index →
        c ∈ OctreeChunkLoader.get_coverage st ideal drawn)
      ∧ (∀ c ∈ OctreeChunkLoader.get_family st ideal,
        c.level_index < ideal.level_index →
        (c ∈ OctreeChunkLoader.get_coverage st ideal drawn ↔ c ∈ drawn))
      ∧ (st.in_memory ideal = true →
        (OctreeChunkLoader.get_coverage st ideal drawn).getLast?
          = some ideal)
      ∧ (st.in_memory ideal = false →
        ideal ∉ OctreeChunkLoader.get_coverage st ideal drawn)) := by
  constructor
  · intro h1 h2
    unfold OctreeChunkLoader.get_coverage
    rw [if_pos ⟨h1, h2⟩]
  · intro hcond
    have hcov : OctreeChunkLoader.get_coverage st ideal drawn =
        if st.in_memory ideal then
          ((OctreeChunkLoader.get_family st ideal).filter fun c =>
            if c.level_index < ideal.level_index then decide (c ∈ drawn)
            else true) ++ [ideal]
        else
          (OctreeChunkLoader.get_family st ideal).filter fun c =>
            if c.level_index < ideal.level_index then decide (c ∈ drawn)
            else true := by
      unfold OctreeChunkLoader.get_coverage
      rw [if_neg hcond]
    refine ⟨?_, ?_, ?_, ?_⟩
    · intro c hc hlvl
      have hkeep : c ∈ (OctreeChunkLoader.get_family st ideal).filter
          fun c => if c.level_index < ideal.level_index then
            decide (c ∈ drawn) else true := by
        refine List.mem_filter.2 ⟨hc, ?_⟩
        rw [if_neg (by omega)]
      rw [hcov]
      split
      · exact List.mem_append_left _ hkeep
      · exact hkeep
    · intro c hc hlvl
      have hne : c ≠ ideal := fun he => by
        rw [he] at hlvl
        omega
      have hmem : c ∈ ((OctreeChunkLoader.get_family st ideal).filter
          fun c => if c.level_index < ideal.level_index then
            decide (c ∈ drawn) else true) ↔ c ∈ drawn := by
        rw [List.mem_filter]
        constructor
        · rintro ⟨-, hp⟩
          rw [if_pos hlvl] at hp
          exact of_decide_eq_true hp
        · intro hd
          exact ⟨hc, by rw [if_pos hlvl]; exact decide_eq_true hd⟩
      rw [hcov]
      split
      · rw [List.mem_append]
        constructor
        · rintro (h | h)
          · exact hmem.1 h
          · exact absurd (List.mem_singleton.1 h) hne
        · intro hd
          exact Or.inl (hmem.2 hd)
      · exact hmem
    · intro him
      rw [hcov, if_pos him]
      exact List.getLast?_concat _
    · intro him hmem
      rw [hcov, if_neg (by rw [him]; exact Bool.false_ne_true)] at hmem
      exact mem_get_family_level_ne st ideal ideal
        (List.mem_filter.1 hmem).1 rfl

/-- Witness for C3 at a concrete input: an ideal chunk in memory and in
the drawn set contributes exactly itself. -/
theorem get_coverage_spec_witness :
    OctreeChunkLoader.get_coverage ⟨2, [(⟨1, 0, 0⟩, .inMemory)], [], []⟩
      ⟨1, 0, 0⟩ [⟨1, 0, 0⟩] = [⟨1, 0, 0⟩] :=
  (get_coverage_spec ⟨2, [(⟨1, 0, 0⟩, .inMemory)], [], []⟩ ⟨1, 0, 0⟩
    [⟨1, 0, 0⟩]).1 (by decide) (by decide)

/-- Claim C1, counterexample: in asynchronous mode, with the request's
key already in the cache AND a pending (not yet started) future for the
same `data_id`, `load_chunk` does return the satisfied request
synchronously — but it has ALSO cancelled the pending task, because
`_load_async` calls `_clear_pending` BEFORE the cache lookup.  This
contradicts the claim that pending tasks are cancelled only on a cache
miss. -/
theorem load_chunk_hit_cancels_cex :
    let s0 : LoaderState :=
      { synchronous := false
        cache := ⟨100, [(⟨5, [0]⟩, .ndarray [1, 2])]⟩
        futures := [⟨0, 5, .pending⟩]
        layer_map := []
        nextFid := 1
        cancelledLog := [] }
    let r0 : ChunkRequest := ⟨9, 5, [0], .lazyArray [7]⟩
    (ChunkLoader.load_chunk s0 r0).1.isSome = true
    ∧ (s0.pendingFor 5).length = 1
    ∧ ((ChunkLoader.load_chunk s0 r0).2.pendingFor 5).length = 0
    ∧ (ChunkLoader.load_chunk s0 r0).2.cancelledLog = [0] := by
  decide

/-- Claim C1 (amended): in synchronous mode, or when the payload is
already an in-memory ndarray, `load_chunk` materializes inline and
returns the satisfied request with the loader state untouched (no pool
submission, no cancellation).  Otherwise the pending tasks for the
request's data-source identity are cancelled unconditionally, BEFORE the
cache is checked (so on cache hits too); a hit then returns the
satisfied request synchronously without submitting anything, and only on
a miss is the request submitted to the pool (one new pending future) and
`None` returned. -/
theorem load_chunk_paths (s : LoaderState) (r : ChunkRequest) :
    ((s.synchronous = true ∨ r.array.isNdarray = true) →
      ChunkLoader.load_chunk s r = (some r.materialize, s))
    ∧ (s.synchronous = false → r.array.isNdarray = false →
      (∀ e, s.cache.entries.find? (fun x => x.1 = r.key) = some e →
        (ChunkLoader.load_chunk s r).1 = some { r with array := e.2 }
        ∧ (ChunkLoader.load_chunk s r).2.futures
          = (ChunkLoader.clear_pending s r.data_id).futures
        ∧ (ChunkLoader.load_chunk s r).2.pendingFor r.data_id = []
        ∧ (ChunkLoader.load_chunk s r).2.nextFid = s.nextFid)
      ∧ (s.cache.entries.find? (fun x => x.1 = r.key) = none →
        (ChunkLoader.load_chunk s r).1 = none
        ∧ (ChunkLoader.load_chunk s r).2.futures
          = (ChunkLoader.clear_pending s r.data_id).futures
            ++ [⟨s.nextFid, r.data_id, .pending⟩]
        ∧ (ChunkLoader.load_chunk s r).2.nextFid = s.nextFid + 1)) := by
  constructor
  · intro h
    unfold ChunkLoader.load_chunk
    rcases h with h | h <;> simp [h]
  · intro hs hn
    have hcond : (s.synchronous || r.array.isNdarray) = false := by
      rw [hs, hn]
      rfl
    constructor
    · intro e he
      have hload : ChunkLoader.load_chunk s r =
          (some { r with array := e.2 },
            { ChunkLoader.clear_pending s r.data_id with
              cache := ⟨s.cache.maxsize,
                (s.cache.entries.filter fun x => x.1 ≠ r.key) ++ [e]⟩ }) := by
        unfold ChunkLoader.load_chunk ChunkLoader.load_async
        simp only [hcond, Bool.false_eq_true, if_false, ChunkCache.get_chunk,
          clear_pending_cache, he]
      refine ⟨by rw [hload], by rw [hload], ?_, by rw [hload]; rfl⟩
      rw [hload]
      show ({ ChunkLoader.clear_pending s r.data_id with
        cache := _ } : LoaderState).pendingFor r.data_id = []
      have := pendingFor_clear_self s r.data_id
      simpa [LoaderState.pendingFor] using this
    · intro he
      have hload : ChunkLoader.load_chunk s r =
          (none,
            { ChunkLoader.clear_pending s r.data_id with
              cache := s.cache
              futures := (ChunkLoader.clear_pending s r.data_id).futures
                ++ [⟨s.nextFid, r.data_id, .pending⟩]
              nextFid := s.nextFid + 1 }) := by
        unfold ChunkLoader.load_chunk ChunkLoader.load_async
        simp only [hcond, Bool.false_eq_true, if_false, ChunkCache.get_chunk,
          clear_pending_cache, he]
        rfl
      exact ⟨by rw [hload], by rw [hload], by rw [hload]⟩

/-- Witness for C1 at concrete inputs: the synchronous fast path leaves
the state untouched, and an asynchronous cache hit returns the cached
payload synchronously. -/
theorem load_chunk_paths_witness :
    ChunkLoader.load_chunk ⟨true, ⟨10, []⟩, [], [], 0, []⟩
        ⟨1, 2, [], .lazyArray [5]⟩
      = (some (ChunkRequest.materialize ⟨1, 2, [], .lazyArray [5]⟩),
          ⟨true, ⟨10, []⟩, [], [], 0, []⟩)
    ∧ (ChunkLoader.load_chunk
        ⟨false, ⟨10, [(⟨5, [0]⟩, .ndarray [1, 2])]⟩, [], [], 0, []⟩
        ⟨9, 5, [0], .lazyArray [7]⟩).1
      = some ⟨9, 5, [0], .ndarray [1, 2]⟩ :=
  ⟨(load_chunk_paths ⟨true, ⟨10, []⟩, [], [], 0, []⟩
      ⟨1, 2, [], .lazyArray [5]⟩).1 (Or.inl rfl),
   (((load_chunk_paths
      ⟨false, ⟨10, [(⟨5, [0]⟩, .ndarray [1, 2])]⟩, [], [], 0, []⟩
      ⟨9, 5, [0], .lazyArray [7]⟩).2 rfl rfl).1
      (⟨5, [0]⟩, .ndarray [1, 2]) (by decide)).1⟩

/-- Claim C6: a future that completed without cancellation has its
result inserted into the cache first; then the layer weakref is
resolved — a garbage-collected (or unknown) layer drops the result
silently, with no error and no notification — and otherwise exactly one
`chunk_loaded` notification carrying the layer and the finished request
is emitted.  A cancelled future triggers neither a cache insertion nor a
notification, and every call of the completion callback emits at most
one notification. -/
theorem done_notification_spec (s : LoaderState) (r : ChunkRequest) :
    (∀ cache', ChunkCache.add_chunk s.cache r = .ok cache' →
      (∀ layer,
        ChunkLoader.get_layer_for_request { s with cache := cache' } r
          = some layer →
        ChunkLoader.done s (.satisfied r)
          = .ok ({ s with cache := cache' }, some ⟨layer, r⟩))
      ∧ (ChunkLoader.get_layer_for_request { s with cache := cache' } r
          = none →
        ChunkLoader.done s (.satisfied r)
          = .ok ({ s with cache := cache' }, none)))
    ∧ ChunkLoader.done s .cancelled = .ok (s, none)
    ∧ (∀ res, notifCount (ChunkLoader.done s res) ≤ 1) := by
  refine ⟨fun cache' hadd => ⟨fun layer hl => ?_, fun hl => ?_⟩, rfl,
    fun res => ?_⟩
  · simp only [ChunkLoader.done, hadd, hl]
  · simp only [ChunkLoader.done, hadd, hl]
  · cases res with
    | cancelled => simp [ChunkLoader.done, notifCount]
    | failed => simp [ChunkLoader.done, notifCount]
    | satisfied r' =>
      cases hadd : ChunkCache.add_chunk s.cache r' with
      | error e => simp [ChunkLoader.done, hadd, notifCount]
      | ok cache' =>
        cases hl : ChunkLoader.get_layer_for_request { s with cache := cache' } r' with
        | none => simp [ChunkLoader.done, hadd, hl, notifCount]
        | some layer => simp [ChunkLoader.done, hadd, hl, notifCount]

/-- Witness for C6 at a concrete input: a satisfied request whose layer
is alive produces exactly the expected cache insertion and one
notification. -/
theorem done_notification_spec_witness :
    ChunkLoader.done ⟨false, ⟨10, []⟩, [], [(9, some 77)], 0, []⟩
        (.satisfied ⟨9, 5, [], .ndarray [1]⟩)
      = .ok (⟨false, ⟨10, [(⟨5, []⟩, .ndarray [1])]⟩, [], [(9, some 77)], 0, []⟩,
          some ⟨77, ⟨9, 5, [], .ndarray [1]⟩⟩) :=
  ((done_notification_spec ⟨false, ⟨10, []⟩, [], [(9, some 77)], 0, []⟩
      ⟨9, 5, [], .ndarray [1]⟩).1
    ⟨10, [(⟨5, []⟩, .ndarray [1])]⟩ rfl).1 77 rfl

lemma totalBytes_append (l1 l2 : List (ChunkKey × ArrayLike)) :
    ChunkCache.totalBytes (l1 ++ l2)
      = ChunkCache.totalBytes l1 + ChunkCache.totalBytes l2 := by
  simp [ChunkCache.totalBytes]

lemma totalBytes_evict_le (budget : Nat) (es : List (ChunkKey × ArrayLike)) :
    ChunkCache.totalBytes (ChunkCache.evict budget es) ≤ budget := by
  induction es with
  | nil => simp [ChunkCache.evict, ChunkCache.totalBytes]
  | cons e t ih =>
    unfold ChunkCache.evict
    split
    · assumption
    · exact ih

lemma evict_drop (budget : Nat) (es : List (ChunkKey × ArrayLike)) :
    ∃ k, ChunkCache.evict budget es = es.drop k := by
  induction es with
  | nil => exact ⟨0, rfl⟩
  | cons e t ih =>
    unfold ChunkCache.evict
    split
    · exact ⟨0, rfl⟩
    · obtain ⟨k, hk⟩ := ih
      exact ⟨k + 1, hk⟩

/-- Claim C8: after every `add_chunk` call the cache's resident bytes
stay within the configured capacity (eviction removes
least-recently-used entries — always a front segment of the
recency-ordered entry list, so the survivors are the most recently used
ones); a size-0 payload never raises; and a payload larger than the
whole capacity is consistently rejected with a `ValueError` (no
deadlock or loop — eviction is structurally terminating). -/
theorem add_chunk_bound_spec :
    (∀ (c c' : ChunkCache) (r : ChunkRequest),
      ChunkCache.add_chunk c r = .ok c' →
      ChunkCache.totalBytes c'.entries ≤ c.maxsize ∧ c'.maxsize = c.maxsize)
    ∧ (∀ (c : ChunkCache) (r : ChunkRequest), r.array.nbytes = 0 →
      ∀ e, ChunkCache.add_chunk c r ≠ .error e)
    ∧ (∀ (c : ChunkCache) (r : ChunkRequest), c.maxsize < r.array.nbytes →
      ChunkCache.add_chunk c r = .error "value too large")
    ∧ (∀ (budget : Nat) (es : List (ChunkKey × ArrayLike)),
      ∃ k, ChunkCache.evict budget es = es.drop k) := by
  refine ⟨fun c c' r h => ?_, fun c r h0 e hcon => ?_, fun c r h => ?_,
    evict_drop⟩
  · unfold ChunkCache.add_chunk ChunkCache.setItem at h
    split at h
    · cases h
    · rename_i hle
      cases h
      refine ⟨?_, rfl⟩
      rw [totalBytes_append]
      have h1 := totalBytes_evict_le (c.maxsize - r.array.nbytes)
        (c.entries.filter fun e => e.1 ≠ r.key)
      have h2 : ChunkCache.totalBytes [(r.key, r.array)] = r.array.nbytes := by
        simp [ChunkCache.totalBytes]
      rw [h2]
      omega
  · unfold ChunkCache.add_chunk ChunkCache.setItem at hcon
    rw [h0, if_neg (by omega)] at hcon
    cases hcon
  · unfold ChunkCache.add_chunk ChunkCache.setItem
    rw [if_pos h]

/-- Witness for C8 at concrete inputs: an insertion that evicted an
older entry respects the bound, a size-0 insertion does not raise, and
an oversized payload is rejected. -/
theorem add_chunk_bound_witness :
    ChunkCache.totalBytes
        (⟨(3 : Nat), [(⟨2, []⟩, .ndarray [3, 4])]⟩ : ChunkCache).entries ≤ 3
    ∧ ChunkCache.add_chunk ⟨3, []⟩ ⟨0, 7, [], .ndarray []⟩ ≠ .error "x"
    ∧ ChunkCache.add_chunk ⟨3, []⟩ ⟨0, 2, [], .ndarray [1, 2, 3, 4]⟩
      = .error "value too large" :=
  ⟨(add_chunk_bound_spec.1 ⟨3, [(⟨1, []⟩, .ndarray [1, 2])]⟩
      ⟨3, [(⟨2, []⟩, .ndarray [3, 4])]⟩ ⟨0, 2, [], .ndarray [3, 4]⟩
      rfl).1,
   add_chunk_bound_spec.2.1 ⟨3, []⟩ ⟨0, 7, [], .ndarray []⟩ (by decide) "x",
   add_chunk_bound_spec.2.2.1 ⟨3, []⟩ ⟨0, 2, [], .ndarray [1, 2, 3, 4]⟩
     (by decide)⟩

lemma load_chunk_snd_futures (s : LoaderState) (r : ChunkRequest) :
    (ChunkLoader.load_chunk s r).2 = s
    ∨ ((ChunkLoader.load_chunk s r).2).futures
        = (ChunkLoader.clear_pending s r.data_id).futures
    ∨ ((ChunkLoader.load_chunk s r).2).futures
        = (ChunkLoader.clear_pending s r.data_id).futures
          ++ [⟨s.nextFid, r.data_id, .pending⟩] := by
  unfold ChunkLoader.load_chunk
  by_cases hc : (s.synchronous || r.array.isNdarray) = true
  · left
    rw [if_pos hc]
  · right
    rw [if_neg hc]
    unfold ChunkLoader.load_async
    dsimp only
    cases hg : ChunkCache.get_chunk
        (ChunkLoader.clear_pending s r.data_id).cache r with
    | mk o cache' =>
      cases o with
      | some a =>
        left
        rfl
      | none =>
        right
        rfl

lemma pendingFor_eq_of_futures (s1 s2 : LoaderState)
    (h : s1.futures = s2.futures) (d : Nat) :
    s1.pendingFor d = s2.pendingFor d := by
  unfold LoaderState.pendingFor
  rw [h]

lemma pendingFor_load_le (s : LoaderState) (r : ChunkRequest)
    (h : ∀ d, (s.pendingFor d).length ≤ 1) (d : Nat) :
    (((ChunkLoader.load_chunk s r).2).pendingFor d).length ≤ 1 := by
  rcases load_chunk_snd_futures s r with hcase | hcase | hcase
  · rw [hcase]
    exact h d
  · rw [pendingFor_eq_of_futures _ (ChunkLoader.clear_pending s r.data_id)
      hcase d]
    by_cases hd : d = r.data_id
    · rw [hd, pendingFor_clear_self]
      simp
    · rw [pendingFor_clear_ne s r.data_id d hd]
      exact h d
  · have hsplit : ((ChunkLoader.load_chunk s r).2).pendingFor d
        = (ChunkLoader.clear_pending s r.data_id).pendingFor d
          ++ ([(⟨s.nextFid, r.data_id, .pending⟩ : LoadFuture)].filter
              fun f => f.data_id = d ∧ f.status = .pending) := by
      unfold LoaderState.pendingFor
      rw [hcase, List.filter_append]
    rw [hsplit, List.length_append]
    by_cases hd : d = r.data_id
    · rw [hd, pendingFor_clear_self]
      simp
    · rw [pendingFor_clear_ne s r.data_id d hd]
      have hnil : ([(⟨s.nextFid, r.data_id, .pending⟩ : LoadFuture)].filter
          fun f => f.data_id = d ∧ f.status = .pending) = [] := by
        simp only [List.filter_cons, List.filter_nil]
        rw [if_neg]
        simp only [decide_eq_true_eq, not_and]
        intro hid
        exact absurd hid.symm hd
      rw [hnil]
      simpa using h d

lemma pendingFor_map_le (s : LoaderState) (f : LoadFuture → LoadFuture)
    (hf : ∀ x, (f x).status = .pending → f x = x) (d : Nat)
    (h : (s.pendingFor d).length ≤ 1) :
    (({ s with futures := s.futures.map f } : LoaderState).pendingFor d).length
      ≤ 1 := by
  unfold LoaderState.pendingFor at *
  rw [← List.countP_eq_length_filter] at h ⊢
  refine le_trans (countP_map_le f _ s.futures fun x hx => ?_) h
  have hp : (f x).data_id = d ∧ (f x).status = .pending :=
    of_decide_eq_true hx
  have hfx := hf x hp.2
  rw [hfx] at hp
  exact decide_eq_true hp

lemma done_futures (s : LoaderState) (res : FutureResult) :
    (match ChunkLoader.done s res with
      | .ok (s', _) => s'
      | .error s' => s').futures = s.futures := by
  unfold ChunkLoader.done
  cases res with
  | cancelled => rfl
  | failed => rfl
  | satisfied r =>
    cases hadd : ChunkCache.add_chunk s.cache r with
    | error e => simp [hadd]
    | ok cache' =>
      cases hl : ChunkLoader.get_layer_for_request
          { s with cache := cache' } r with
      | none => simp [hadd, hl]
      | some layer => simp [hadd, hl]

lemma step_preserves_single_flight (s : LoaderState) (e : LoaderEvent)
    (h : ∀ d, (s.pendingFor d).length ≤ 1) (d : Nat) :
    ((ChunkLoader.step s e).pendingFor d).length ≤ 1 := by
  cases e with
  | load r => exact pendingFor_load_le s r h d
  | start fid =>
    refine pendingFor_map_le s _ (fun x hx => ?_) d (h d)
    by_cases hc : x.fid = fid ∧ x.status = .pending
    · rw [if_pos hc] at hx
      cases hx
    · rw [if_neg hc]
  | finish fid r =>
    have hfut : (ChunkLoader.step s (.finish fid r)).futures
        = s.futures.map fun x =>
            if x.fid = fid ∧ x.status = .running then
              { x with status := .finished }
            else x := by
      unfold ChunkLoader.step
      exact done_futures _ _
    have hb : (({ s with futures := s.futures.map fun x =>
        if x.fid = fid ∧ x.status = .running then
          { x with status := .finished }
        else x } : LoaderState).pendingFor d).length ≤ 1 := by
      refine pendingFor_map_le s _ (fun x hx => ?_) d (h d)
      by_cases hc : x.fid = fid ∧ x.status = .running
      · rw [if_pos hc] at hx
        cases hx
      · rw [if_neg hc]
    rw [pendingFor_eq_of_futures (ChunkLoader.step s (.finish fid r))
      ({ s with futures := s.futures.map fun x =>
          if x.fid = fid ∧ x.status = .running then
            { x with status := .finished }
          else x } : LoaderState)
      (by rw [hfut]) d]
    exact hb

lemma run_preserves_single_flight (evs : List LoaderEvent) :
    ∀ s : LoaderState, (∀ d, (s.pendingFor d).length ≤ 1) →
      ∀ d, ((ChunkLoader.run s evs).pendingFor d).length ≤ 1 := by
  induction evs with
  | nil => exact fun s h d => h d
  | cons e t ih =>
    intro s h d
    exact ih (ChunkLoader.step s e)
      (fun d' => step_preserves_single_flight s e h d') d

/-- Claim C2: along any trace of loader events (load calls, workers
picking futures up, workers finishing), at most one future per
data-source identity is pending (outstanding and not yet started) at any
time: each asynchronous load first cancels every pending future for its
`data_id` before possibly submitting one new future. -/
theorem single_flight_invariant (maxsize : Nat) (evs : List LoaderEvent)
    (d : Nat) :
    ((ChunkLoader.run (ChunkLoader.init maxsize) evs).pendingFor d).length
      ≤ 1 :=
  run_preserves_single_flight evs (ChunkLoader.init maxsize)
    (fun d' => by simp [ChunkLoader.init, LoaderState.pendingFor]) d

lemma mem_dictInsert {x : OctreeLocation} (d : List OctreeLocation)
    (y : OctreeLocation) (h : x ∈ d) :
    x ∈ OctreeChunkLoader.dictInsert d y := by
  unfold OctreeChunkLoader.dictInsert
  split
  · exact h
  · exact List.mem_append_left _ h

lemma mem_foldl_dictInsert (x : OctreeLocation) (mem : List OctreeLocation) :
    ∀ d, x ∈ d → x ∈ mem.foldl OctreeChunkLoader.dictInsert d := by
  induction mem with
  | nil => exact fun d h => h
  | cons a t ih => exact fun d h => ih _ (mem_dictInsert d a h)

lemma load_and_add_mono (sync : OctreeLocation → Bool)
    (drawable : List OctreeLocation) (st : OctreeState)
    (chunks : List OctreeLocation) {d' : List OctreeLocation}
    {st' : OctreeState}
    (h : OctreeChunkLoader.load_and_add sync drawable st chunks
      = .ok (d', st'))
    {x : OctreeLocation} (hx : x ∈ drawable) : x ∈ d' := by
  unfold OctreeChunkLoader.load_and_add at h
  cases hlin : OctreeChunkLoader.load_if_needed sync st chunks with
  | error e =>
    rw [hlin] at h
    cases h
  | ok p =>
    obtain ⟨mem, st1⟩ := p
    rw [hlin] at h
    cases h
    exact mem_foldl_dictInsert x mem drawable hx

lemma coverage_loop_mono (sync : OctreeLocation → Bool)
    (drawn : List OctreeLocation) :
    ∀ (ideal d : List OctreeLocation) (st : OctreeState)
      (d' : List OctreeLocation) (st' : OctreeState),
      OctreeChunkLoader.coverage_loop sync drawn ideal d st = .ok (d', st') →
      ∀ x ∈ d, x ∈ d' := by
  intro ideal
  induction ideal with
  | nil =>
    intro d st d' st' h x hx
    cases h
    exact hx
  | cons i rest ih =>
    intro d st d' st' h x hx
    unfold OctreeChunkLoader.coverage_loop at h
    cases hla : OctreeChunkLoader.load_and_add sync d st
        (OctreeChunkLoader.get_coverage st i drawn) with
    | error e =>
      rw [hla] at h
      cases h
    | ok p =>
      obtain ⟨d1, st1⟩ := p
      rw [hla] at h
      exact ih d1 st1 d' st' h x (load_and_add_mono sync d st _ hla hx)

/-- Claim C4: whenever the root chunk is in memory, any drawable list a
selection pass returns contains the root chunk — in particular it is
never empty — no matter the camera position (the drawn set and the
ideal chunks are arbitrary) and whether any ideal chunk is in memory. -/
theorem get_drawable_chunks_root (sync : OctreeLocation → Bool)
    (st : OctreeState) (drawn ideal_chunks : List OctreeLocation)
    (l : List OctreeLocation) (st' : OctreeState)
    (hroot : st.in_memory st.rootLoc = true)
    (h : OctreeChunkLoader.get_drawable_chunks sync st drawn ideal_chunks
      = .ok (l, st')) :
    st.rootLoc ∈ l ∧ l ≠ [] := by
  have hst : st.chunkState st.rootLoc = .inMemory := of_decide_eq_true hroot
  have hn : st.needs_load st.rootLoc = false := by
    unfold OctreeState.needs_load
    rw [hst]
    rfl
  have h1 : OctreeChunkLoader.load_and_add sync [] st
      (OctreeChunkLoader.get_permanent_chunks st) = .ok ([st.rootLoc], st) := by
    unfold OctreeChunkLoader.load_and_add
      OctreeChunkLoader.get_permanent_chunks
    simp [OctreeChunkLoader.load_if_needed, hroot, hn,
      OctreeChunkLoader.dictInsert]
  unfold OctreeChunkLoader.get_drawable_chunks at h
  rw [h1] at h
  dsimp only at h
  cases hcl : OctreeChunkLoader.coverage_loop sync drawn ideal_chunks
      [st.rootLoc] st with
  | error e =>
    rw [hcl] at h
    cases h
  | ok p =>
    obtain ⟨d2, st2⟩ := p
    rw [hcl] at h
    dsimp only at h
    cases hk : OctreeChunkLoader.kickoff_loop sync ideal_chunks
        (OctreeChunkLoader.cancel_futures st2 d2) with
    | error e =>
      rw [hk] at h
      cases h
    | ok st4 =>
      rw [hk] at h
      have hm : st.rootLoc ∈ d2 :=
        coverage_loop_mono sync drawn ideal_chunks [st.rootLoc] st d2 st2 hcl
          st.rootLoc (List.mem_singleton_self _)
      cases h
      exact ⟨hm, List.ne_nil_of_mem hm⟩

/-- Witness for C4 at a concrete input: a two-level octree whose root is
in memory yields a drawable list containing the root. -/
theorem get_drawable_chunks_root_witness :
    OctreeState.rootLoc ⟨1, [(⟨1, 0, 0⟩, .inMemory)], [], []⟩
      ∈ [(⟨1, 0, 0⟩ : OctreeLocation)]
    ∧ [(⟨1, 0, 0⟩ : OctreeLocation)] ≠ [] :=
  get_drawable_chunks_root (fun _ => false)
    ⟨1, [(⟨1, 0, 0⟩, .inMemory)], [], []⟩ [] [] [⟨1, 0, 0⟩]
    ⟨1, [(⟨1, 0, 0⟩, .inMemory)], [], []⟩ (by decide) rfl

/-- Claim C5: `_cancel_futures` keeps exactly the futures whose location
is in the drawable set; every other future has `cancel()` called on it
and is removed from the futures map, so no location outside the wanted
set keeps a pending load alive past the pass. -/
theorem cancel_futures_spec (st : OctreeState)
    (drawable : List OctreeLocation) :
    (∀ loc, loc ∈ (OctreeChunkLoader.cancel_futures st drawable).futures ↔
      loc ∈ st.futures ∧ loc ∈ drawable)
    ∧ (OctreeChunkLoader.cancel_futures st drawable).octCancelled
      = st.octCancelled ++ (st.futures.filter fun loc => loc ∉ drawable) := by
  constructor
  · intro loc
    simp [OctreeChunkLoader.cancel_futures, List.mem_filter]
  · rfl

